import Mathlib

/-!
Shallow embedding of `obsutil/obs_client.go` (package `obsutil` of
pylemonorg/gotools) and proofs about its upload engine.

The object-store collaborator (the huaweicloud OBS SDK) is external to the
repository; it is modelled by environment records whose fields give the
outcome of each collaborator call, and by an event trace recording the calls
the code issues.  `storedContent` models the collaborator's object-assembly
semantics (a committed multipart object is the concatenation of its parts'
bodies in the submitted order; a direct put stores its body verbatim).
-/

namespace Obsutil

/-- Errors produced by the wrapper, mirroring the `error` values built in
`obs_client.go`: plain errors, `obs.ObsError` with a status code,
`fmt.Errorf("...: %w", err)` wrapping, the per-attempt timeout error of
`PutBytesWithRetry`, the dead-code aggregate error of line 224, the
part-count mismatch error, and the streaming part-upload failure error. -/
inductive ObsErr where
  | simple (msg : String)
  | obsError (statusCode : Nat) (msg : String)
  | wrap (pre : String) (cause : ObsErr)
  | timeoutErr
  | aggregate (retries : Nat) (cause : ObsErr)
  | partCountMismatch (expected actual : Nat)
  | partUploadFailed (partNumber : Nat) (cause : ObsErr)
  | nilError
deriving DecidableEq, Repr

/-- Rendering of an error to its message string, mirroring Go's
`err.Error()` (used only by the keyword classifier). -/
def errMsg : ObsErr → String
  | .simple m => m
  | .obsError code m => toString code ++ " " ++ m
  | .wrap pre c => pre ++ ": " ++ errMsg c
  | .timeoutErr => "obsutil: PutObject 超时(30s)"
  | .aggregate n c =>
      "obsutil: 上传失败（已重试 " ++ toString n ++ " 次）: " ++ errMsg c
  | .partCountMismatch e a =>
      "obsutil: 分段不完整: 期望 " ++ toString e ++ " 个，实际 " ++ toString a ++ " 个"
  | .partUploadFailed n c =>
      "obsutil: 分段 " ++ toString n ++ " 上传失败（重试3次）: " ++ errMsg c
  | .nilError => "<nil>"

/-- Mirrors `retryableKeywords` of `obs_client.go`. -/
def retryableKeywords : List String :=
  ["503", "Service Unavailable",
   "GetQosTokenException", "connection token",
   "429", "Too Many Requests", "Indicator=601",
   "timeout", "connection", "wsarecv",
   "i/o timeout", "connection reset"]

/-- Mirrors `strings.Contains(s, sub)` on the underlying character lists. -/
def strContains (s sub : String) : Bool :=
  decide (sub.toList <:+: s.toList)

/-- Mirrors `isRetryable` of `obs_client.go`: keyword substring search over
the rendered error message (`strings.Contains`). -/
def isRetryable (e : ObsErr) : Bool :=
  retryableKeywords.any fun kw => strContains (errMsg e) kw

/-- Mirrors `obs.Part`: part number plus opaque ETag. -/
structure Part where
  partNumber : Nat
  etag : String
deriving DecidableEq, Repr

/-- Trace of calls issued to the object-store collaborator (and sleeps). -/
inductive ObsEvent where
  | putObject (key : String) (body : List Nat)
  | initiate (key : String)
  | uploadPart (key uploadId : String) (partNumber : Nat) (body : List Nat)
  | complete (key uploadId : String) (parts : List Part)
  | abort (key uploadId : String)
  | headObject (key : String)
  | getObject (key : String)
  | sleep (nanos : Int)
deriving DecidableEq, Repr

/-- State of the modelled object store while replaying a trace: the bodies
uploaded per part number (most recent first) and the committed object. -/
structure StoreState where
  uploaded : List (Nat × List Nat)
  committed : Option (List Nat)

/-- One step of the modelled store: `UploadPart` records a body under its
part number, `CompleteMultipartUpload` assembles the submitted parts in
their submitted order, `PutObject` stores its body directly. -/
def stepStore (st : StoreState) : ObsEvent → StoreState
  | .uploadPart _ _ n b => { st with uploaded := (n, b) :: st.uploaded }
  | .complete _ _ pl =>
      let bodies := pl.map (fun p => (st.uploaded.lookup p.partNumber).getD [])
      { st with committed := some bodies.flatten }
  | .putObject _ b => { st with committed := some b }
  | _ => st

/-- Content of the stored object after replaying a trace. -/
def storedContent (events : List ObsEvent) : Option (List Nat) :=
  (events.foldl stepStore ⟨[], none⟩).committed

/-- The byte range uploaded for 0-based part index `i`: Go's
`data[partNum*partSize : min(partNum*partSize+partSize, dataLen)]`. -/
def partSlice (data : List Nat) (ps i : Nat) : List Nat :=
  (data.drop (i * ps)).take ps

/-- Collaborator outcomes for one run of `PutBytesMultipart`.  `uploadPart`
takes the 1-based part number and the index of the call made for that part
(the source calls the collaborator once per part, with index 0). -/
structure MultipartEnv where
  putObjectResult : Except ObsErr Unit
  initResult : Except ObsErr String
  uploadPart : Nat → Nat → Except ObsErr String
  completeResult : Except ObsErr Unit
  abortResult : Except ObsErr Unit

/-- Mirrors the result-collection loop `for r := range results`: parts are
appended in channel (collection) order, and `uploadErr` keeps the last
error observed.  `order` lists the 0-based part indices in collection
order. -/
def collectParts (up : Nat → Nat → Except ObsErr String) :
    List Nat → List Part × Option ObsErr
  | [] => ([], none)
  | i :: rest =>
    let r := collectParts up rest
    match up (i + 1) 0 with
    | .ok etag => (⟨i + 1, etag⟩ :: r.1, r.2)
    | .error e => (r.1, some (r.2.getD e))

/-- Default part size: 50 MiB. -/
def defaultPartSize : Int := 50 * 1024 * 1024

/-- Mirrors `if partSize <= 0 { partSize = 50 * 1024 * 1024 }`. -/
def defaultedPartSize (ps0 : Int) : Int :=
  if ps0 ≤ 0 then defaultPartSize else ps0

/-- Mirrors `partCount := int((dataLen + partSize - 1) / partSize)` (all
quantities nonnegative after defaulting). -/
def partCountNat (data : List Nat) (ps0 : Int) : Nat :=
  (data.length + (defaultedPartSize ps0).toNat - 1) / (defaultedPartSize ps0).toNat

/-- Comparison used by `sort.Slice(parts, ...)`: ascending part number. -/
def partLE (p q : Part) : Prop := p.partNumber ≤ q.partNumber

instance : DecidableRel partLE :=
  fun p q => inferInstanceAs (Decidable (p.partNumber ≤ q.partNumber))

instance : IsTotal Part partLE := ⟨fun a b => Nat.le_total a.partNumber b.partNumber⟩

instance : IsTrans Part partLE := ⟨fun _ _ _ h h' => Nat.le_trans h h'⟩

/-- Shallow embedding of `ObsClient.PutBytesMultipart`.  `order` gives the
collection order of the concurrently uploaded parts (a permutation of the
dispatched part indices chosen by the scheduler); the returned pair is the
Go error result and the trace of collaborator calls. -/
def PutBytesMultipart (env : MultipartEnv) (order : List Nat) (key : String)
    (data : List Nat) (partSize0 concurrency0 : Int) :
    Option ObsErr × List ObsEvent :=
  let dataLen : Int := (data.length : Int)
  let partSize := defaultedPartSize partSize0
  let _concurrency : Int := if concurrency0 ≤ 0 then 5 else concurrency0
  if dataLen ≤ partSize then
    match env.putObjectResult with
    | .ok _ => (none, [.putObject key data])
    | .error e => (some (.wrap "obsutil: 上传对象失败" e), [.putObject key data])
  else
    match env.initResult with
    | .error e => (some (.wrap "obsutil: 初始化分段上传失败" e), [.initiate key])
    | .ok uploadId =>
      let ps : Nat := partSize.toNat
      let partCount := partCountNat data partSize0
      let uploadEvents := order.map fun i =>
        ObsEvent.uploadPart key uploadId (i + 1) (partSlice data ps i)
      let collected := collectParts env.uploadPart order
      let parts := collected.1
      let uploadErr := collected.2
      let events := ObsEvent.initiate key :: uploadEvents
      if uploadErr.isSome ∨ parts.length ≠ partCount then
        let events := events ++ [ObsEvent.abort key uploadId]
        match uploadErr with
        | some e => (some (.wrap "obsutil: 分段上传失败" e), events)
        | none => (some (.partCountMismatch partCount parts.length), events)
      else
        let sorted := List.insertionSort partLE parts
        match env.completeResult with
        | .ok _ => (none, events ++ [ObsEvent.complete key uploadId sorted])
        | .error e =>
            (some (.wrap "obsutil: 完成分段上传失败" e),
             events ++ [ObsEvent.complete key uploadId sorted])

/-- Outcome of one attempt of the inner `oc.PutObject` call raced against
the 30s timeout in `PutBytesWithRetry`: a result value, an error, or no
answer within the timeout. -/
inductive AttemptOutcome where
  | ok (out : Nat)
  | fail (e : ObsErr)
  | timedOut
deriving DecidableEq, Repr

instance {ε α : Type} [DecidableEq ε] [DecidableEq α] : DecidableEq (Except ε α) :=
  fun x y =>
  match x, y with
  | .ok a, .ok b =>
      if h : a = b then .isTrue (by rw [h])
      else .isFalse (by intro hh; cases hh; exact h rfl)
  | .error a, .error b =>
      if h : a = b then .isTrue (by rw [h])
      else .isFalse (by intro hh; cases hh; exact h rfl)
  | .ok _, .error _ => .isFalse (by intro hh; cases hh)
  | .error _, .ok _ => .isFalse (by intro hh; cases hh)

/-- Observable outcome of a `PutBytesWithRetry` run: the Go return value,
the number of times the put operation was launched, and the sequence of
backoff sleeps performed (in nanoseconds). -/
structure RetryTrace where
  result : Except ObsErr Nat
  invocations : Nat
  sleeps : List Int
deriving DecidableEq, Repr

/-- One second in nanoseconds (`time.Second`). -/
def oneSecond : Int := 1000000000

/-- Shallow embedding of the `for attempt := 0; attempt <= maxRetries`
loop of `PutBytesWithRetry`.  `env attempt` is the outcome of the put
launched on that attempt.  The `attempt > maxRetries` case is the fall
through after the loop (line 224 of the source), returning the aggregate
error built from `lastErr`. -/
def putLoop (env : Nat → AttemptOutcome) (maxRetries : Nat) (retryDelay : Int)
    (attempt : Nat) (lastErr : Option ObsErr) : RetryTrace :=
  if _h : attempt ≤ maxRetries then
    let sleeps : List Int := if attempt = 0 then [] else [retryDelay * 2 ^ (attempt - 1)]
    match env attempt with
    | .ok out => { result := .ok out, invocations := 1, sleeps := sleeps }
    | .fail e =>
      if attempt < maxRetries ∧ isRetryable e = true then
        let rest := putLoop env maxRetries retryDelay (attempt + 1) (some e)
        { result := rest.result, invocations := rest.invocations + 1,
          sleeps := sleeps ++ rest.sleeps }
      else { result := .error e, invocations := 1, sleeps := sleeps }
    | .timedOut =>
      if attempt < maxRetries then
        let rest := putLoop env maxRetries retryDelay (attempt + 1) (some .timeoutErr)
        { result := rest.result, invocations := rest.invocations + 1,
          sleeps := sleeps ++ rest.sleeps }
      else { result := .error .timeoutErr, invocations := 1, sleeps := sleeps }
  else
    { result := .error (.aggregate maxRetries (lastErr.getD .nilError)),
      invocations := 0, sleeps := [] }
termination_by maxRetries + 1 - attempt
decreasing_by all_goals omega

/-- Shallow embedding of `ObsClient.PutBytesWithRetry`, including the
defaulting of non-positive `maxRetries` to 3 and non-positive `retryDelay`
to one second. -/
def PutBytesWithRetry (env : Nat → AttemptOutcome)
    (maxRetries0 : Int) (retryDelay0 : Int) : RetryTrace :=
  let maxRetries := if maxRetries0 ≤ 0 then 3 else maxRetries0
  let retryDelay := if retryDelay0 ≤ 0 then oneSecond else retryDelay0
  putLoop env maxRetries.toNat retryDelay 0 none

/-- Recogniser for the aggregate error shape of line 224. -/
def isAggregateErr : ObsErr → Bool
  | .aggregate _ _ => true
  | _ => false

/-- Collaborator outcomes for a streaming-uploader session.  `uploadPart`
takes the 1-based part number and the retry index (0, 1 or 2) of the call
made for that part inside `WritePart`. -/
structure StreamEnv where
  uploadPart : Nat → Nat → Except ObsErr String
  completeResult : Except ObsErr Unit
  abortResult : Except ObsErr Unit

/-- Mirrors the `StreamingUploader` struct: recorded parts, the highest
dispatched part number, and the two terminal flags. -/
structure StreamingUploader where
  key : String
  uploadId : String
  parts : List Part
  partNumber : Nat
  aborted : Bool
  completed : Bool
deriving DecidableEq, Repr

/-- Mirrors the `for retry := 0; retry < 3` loop inside `WritePart`:
returns the etag on success, the last error once all three attempts fail,
and the trace of sleeps and upload calls. -/
def writePartLoop (env : StreamEnv) (key uploadId : String) (partNum : Nat)
    (body : List Nat) (lastErr : Option ObsErr) (retry : Nat) :
    Option String × Option ObsErr × List ObsEvent :=
  if _h : retry < 3 then
    let sleeps : List ObsEvent :=
      if retry = 0 then [] else [.sleep (oneSecond * (retry : Int))]
    let callEv : List ObsEvent := [.uploadPart key uploadId partNum body]
    match env.uploadPart partNum retry with
    | .error e =>
      let rest := writePartLoop env key uploadId partNum body (some e) (retry + 1)
      (rest.1, rest.2.1, sleeps ++ callEv ++ rest.2.2)
    | .ok etag => (some etag, none, sleeps ++ callEv)
  else
    (none, lastErr, [])
termination_by 3 - retry
decreasing_by all_goals omega

/-- Shallow embedding of `StreamingUploader.WritePart`: empty data returns
nil immediately; a terminal state returns an error without side effects;
otherwise the next part number is consumed, the upload is attempted up to
three times, and on success the part is appended. -/
def WritePart (env : StreamEnv) (su : StreamingUploader) (data : List Nat) :
    StreamingUploader × Option ObsErr × List ObsEvent :=
  if data.length = 0 then (su, none, [])
  else if su.aborted then (su, some (.simple "obsutil: 上传已取消"), [])
  else if su.completed then (su, some (.simple "obsutil: 上传已完成"), [])
  else
    let partNum := su.partNumber + 1
    let su1 := { su with partNumber := partNum }
    match writePartLoop env su.key su.uploadId partNum data none 0 with
    | (some etag, _, evs) =>
        ({ su1 with parts := su1.parts ++ [⟨partNum, etag⟩] }, none, evs)
    | (none, lastErr, evs) =>
        (su1, some (.partUploadFailed partNum (lastErr.getD .nilError)), evs)

/-- Shallow embedding of `StreamingUploader.Complete`. -/
def Complete (env : StreamEnv) (su : StreamingUploader) :
    StreamingUploader × Option ObsErr × List ObsEvent :=
  if su.aborted then (su, some (.simple "obsutil: 上传已取消"), [])
  else if su.completed then (su, none, [])
  else if su.parts.length = 0 then (su, some (.simple "obsutil: 没有上传任何分段"), [])
  else if su.parts.length ≠ su.partNumber then
    (su, some (.partCountMismatch su.partNumber su.parts.length), [])
  else
    let sorted := List.insertionSort partLE su.parts
    let su1 := { su with parts := sorted }
    match env.completeResult with
    | .error e =>
        (su1, some (.wrap "obsutil: 完成分段上传失败" e),
         [.complete su.key su.uploadId sorted])
    | .ok _ =>
        ({ su1 with completed := true }, none,
         [.complete su.key su.uploadId sorted])

/-- Shallow embedding of `StreamingUploader.Abort`: a no-op on terminal
states, otherwise a best-effort remote abort (whose failure is only
logged) followed by the transition to `aborted`. -/
def Abort (_env : StreamEnv) (su : StreamingUploader) :
    StreamingUploader × Option ObsErr × List ObsEvent :=
  if su.completed ∨ su.aborted then (su, none, [])
  else ({ su with aborted := true }, none, [.abort su.key su.uploadId])

/-- Mirrors `StreamingUploader.PartsCount`. -/
def PartsCount (su : StreamingUploader) : Nat := su.parts.length

/-- Mirrors `StreamingUploader.TotalPartNumber`. -/
def TotalPartNumber (su : StreamingUploader) : Nat := su.partNumber

/-- Collaborator outcomes for one run of `TryCreateLock`. -/
structure LockEnv where
  headObject : Except ObsErr Unit
  putObject : Except ObsErr Unit
  getObject : Except ObsErr (List Nat)

/-- Mirrors the 404 test `obsErr.StatusCode == 404` on a head failure. -/
def isStatus404 : ObsErr → Bool
  | .obsError 404 _ => true
  | _ => false

/-- Shallow embedding of `ObsClient.ObjectExists`: a 404 head failure is
the negative answer, any other failure is a wrapped error. -/
def ObjectExists (env : LockEnv) (key : String) :
    Except ObsErr Bool × List ObsEvent :=
  match env.headObject with
  | .ok _ => (.ok true, [.headObject key])
  | .error e =>
    if isStatus404 e then (.ok false, [.headObject key])
    else (.error (.wrap "obsutil: 检查对象是否存在失败" e), [.headObject key])

/-- Shallow embedding of `ObsClient.TryCreateLock`: existence check, lock
write, fixed 50 ms propagation wait, read back, then the
`bytes.Contains(data, instanceID)` ownership test. -/
def TryCreateLock (env : LockEnv) (key : String)
    (lockContent instanceID : List Nat) :
    (Bool × Option ObsErr) × List ObsEvent :=
  match ObjectExists env key with
  | (.error e, evs) => ((false, some (.wrap "obsutil: 检查锁文件失败" e)), evs)
  | (.ok true, evs) => ((false, none), evs)
  | (.ok false, evs) =>
    match env.putObject with
    | .error e =>
        ((false, some (.wrap "obsutil: 创建锁文件失败" (.wrap "obsutil: 上传对象失败" e))),
         evs ++ [.putObject key lockContent])
    | .ok _ =>
      let evs := evs ++ [.putObject key lockContent, .sleep 50000000]
      match env.getObject with
      | .error e =>
          ((false, some (.wrap "obsutil: 读取锁文件失败" (.wrap "obsutil: 下载对象失败" e))),
           evs ++ [.getObject key])
      | .ok data =>
        if instanceID <:+: data then ((true, none), evs ++ [.getObject key])
        else ((false, none), evs ++ [.getObject key])

/-- Event predicate: an `uploadPart` call (any part). -/
def isUploadPartEv : ObsEvent → Bool
  | .uploadPart _ _ _ _ => true
  | _ => false

/-- Event predicate: an `uploadPart` call for part number `p`. -/
def isUploadNumEv (p : Nat) : ObsEvent → Bool
  | .uploadPart _ _ n _ => decide (n = p)
  | _ => false

/-- Event predicate: a `complete` call. -/
def isCompleteEv : ObsEvent → Bool
  | .complete _ _ _ => true
  | _ => false

/-- Event predicate: an `abort` call. -/
def isAbortEv : ObsEvent → Bool
  | .abort _ _ => true
  | _ => false

/-- Projection selecting a `complete` call's parts list. -/
def completeProj : ObsEvent → Option (List Part)
  | .complete _ _ pl => some pl
  | _ => none

/-- The parts list submitted by the first `complete` call of a trace. -/
def completedPartsIn (events : List ObsEvent) : Option (List Part) :=
  events.findSome? completeProj

/-- Whether an attempt outcome is a failure the retry loop keeps retrying:
a retryable error or a per-attempt timeout. -/
def attemptFails : AttemptOutcome → Bool
  | .ok _ => false
  | .fail e => isRetryable e
  | .timedOut => true

/-- The error a failing attempt contributes as `lastErr`. -/
def attemptCause : AttemptOutcome → ObsErr
  | .ok _ => .nilError
  | .fail e => e
  | .timedOut => .timeoutErr

/-! ### Slicing arithmetic -/

theorem partSlice_flatten (data : List Nat) (ps : Nat) :
    ∀ n : Nat, ((List.range n).map (partSlice data ps)).flatten = data.take (n * ps) := by
  intro n
  induction n with
  | zero => simp
  | succ n ih =>
    rw [List.range_succ, List.map_append, List.flatten_append, ih]
    simp only [List.map_cons, List.map_nil, List.flatten_cons, List.flatten_nil,
      List.append_nil, partSlice]
    rw [Nat.succ_mul, List.take_add]

theorem length_le_ceil_mul (len ps : Nat) (hps : 0 < ps) :
    len ≤ ((len + ps - 1) / ps) * ps := by
  have h1 := Nat.div_add_mod (len + ps - 1) ps
  rw [Nat.mul_comm] at h1
  have h2 := Nat.mod_lt (len + ps - 1) hps
  omega

theorem partSlice_flatten_eq (data : List Nat) (ps : Nat) (hps : 0 < ps) :
    ((List.range ((data.length + ps - 1) / ps)).map (partSlice data ps)).flatten = data := by
  rw [partSlice_flatten]
  exact List.take_of_length_le (length_le_ceil_mul data.length ps hps)

/-! ### Collection-loop characterisation -/

theorem collectParts_all_ok (up : Nat → Nat → Except ObsErr String) (etags : Nat → String) :
    ∀ order : List Nat,
      (∀ i ∈ order, up (i + 1) 0 = .ok (etags i)) →
      collectParts up order = (order.map fun i => ⟨i + 1, etags i⟩, none) := by
  intro order
  induction order with
  | nil => intro _; rfl
  | cons i rest ih =>
    intro h
    have hi := h i (List.mem_cons_self i rest)
    have hrest := ih fun j hj => h j (List.mem_cons_of_mem i hj)
    simp only [collectParts, hrest, hi, List.map_cons]

theorem collectParts_err_none (up : Nat → Nat → Except ObsErr String) :
    ∀ order : List Nat,
      (collectParts up order).2 = none →
      ∀ i ∈ order, ∃ t, up (i + 1) 0 = .ok t := by
  intro order
  induction order with
  | nil => intro _ i hi; cases hi
  | cons i rest ih =>
    intro h j hj
    cases hu : up (i + 1) 0 with
    | ok t =>
      simp only [collectParts, hu] at h
      rcases List.mem_cons.mp hj with rfl | hjr
      · exact ⟨t, hu⟩
      · exact ih h j hjr
    | error e => simp only [collectParts, hu] at h; simp at h

theorem collectParts_length_of_none (up : Nat → Nat → Except ObsErr String) :
    ∀ order : List Nat,
      (collectParts up order).2 = none →
      (collectParts up order).1.length = order.length := by
  intro order
  induction order with
  | nil => intro _; rfl
  | cons i rest ih =>
    intro h
    cases hu : up (i + 1) 0 with
    | ok t =>
      simp only [collectParts, hu] at h ⊢
      simp only [List.length_cons, ih h]
    | error e => simp only [collectParts, hu] at h; simp at h

theorem collectParts_err_isSome (up : Nat → Nat → Except ObsErr String) :
    ∀ order : List Nat, ∀ i ∈ order,
      (∀ t, up (i + 1) 0 ≠ .ok t) →
      (collectParts up order).2.isSome = true := by
  intro order
  induction order with
  | nil => intro i hi; cases hi
  | cons j rest ih =>
    intro i hi hfail
    cases hu : up (j + 1) 0 with
    | ok t =>
      simp only [collectParts, hu]
      rcases List.mem_cons.mp hi with rfl | hir
      · exact absurd hu (hfail t)
      · exact ih i hir hfail
    | error e => simp [collectParts, hu]

/-! ### Association-list lookup -/

theorem lookup_eq_of_mem_of_nodup (k : Nat) (v : List Nat) :
    ∀ l : List (Nat × List Nat),
      (l.map Prod.fst).Nodup → (k, v) ∈ l → l.lookup k = some v := by
  intro l
  induction l with
  | nil => intro _ h; cases h
  | cons hd tl ih =>
    intro hnd hmem
    obtain ⟨k1, v1⟩ := hd
    simp only [List.map_cons, List.nodup_cons] at hnd
    rcases List.mem_cons.mp hmem with heq | hmemtl
    · injection heq with h1 h2
      subst h1; subst h2
      simp [List.lookup]
    · have hne : k ≠ k1 := by
        rintro rfl
        exact hnd.1 (List.mem_map.mpr ⟨(k, v), hmemtl, rfl⟩)
      rw [show List.lookup k ((k1, v1) :: tl) = List.lookup k tl by
        simp [List.lookup, beq_eq_false_iff_ne.mpr hne]]
      exact ih hnd.2 hmemtl

/-! ### The successful multipart run -/

theorem defaultedPartSize_pos (ps0 : Int) : 0 < defaultedPartSize ps0 := by
  unfold defaultedPartSize defaultPartSize
  split <;> omega

theorem multipart_success_eq (env : MultipartEnv) (order : List Nat) (key : String)
    (data : List Nat) (ps0 c0 : Int) (uid : String) (etags : Nat → String)
    (hbig : defaultedPartSize ps0 < (data.length : Int))
    (hinit : env.initResult = .ok uid)
    (hcomp : env.completeResult = .ok ())
    (hall : ∀ i < partCountNat data ps0, env.uploadPart (i + 1) 0 = .ok (etags i))
    (horder : order.Perm (List.range (partCountNat data ps0))) :
    PutBytesMultipart env order key data ps0 c0 =
      (none,
        ObsEvent.initiate key ::
          (order.map fun i =>
            ObsEvent.uploadPart key uid (i + 1)
              (partSlice data (defaultedPartSize ps0).toNat i)) ++
          [ObsEvent.complete key uid
            (List.insertionSort partLE (order.map fun i => ⟨i + 1, etags i⟩))]) := by
  have hnotle : ¬ ((data.length : Int) ≤ defaultedPartSize ps0) := not_le.mpr hbig
  have hallmem : ∀ i ∈ order, env.uploadPart (i + 1) 0 = .ok (etags i) := by
    intro i hi
    exact hall i (List.mem_range.mp (horder.mem_iff.mp hi))
  have hcollect := collectParts_all_ok env.uploadPart etags order hallmem
  have hlen : (order.map fun i => (⟨i + 1, etags i⟩ : Part)).length
      = partCountNat data ps0 := by
    rw [List.length_map, horder.length_eq, List.length_range]
  simp only [PutBytesMultipart, hinit, hcollect, hcomp]
  rw [if_neg hnotle, if_neg (by simp [hlen])]

theorem sorted_parts_map_range (order : List Nat) (n : Nat) (etags : Nat → String)
    (horder : order.Perm (List.range n)) :
    (List.insertionSort partLE (order.map fun i => (⟨i + 1, etags i⟩ : Part))).map
        Part.partNumber = List.range' 1 n := by
  apply List.eq_of_perm_of_sorted (r := (· ≤ · : Nat → Nat → Prop))
  · have h1 := (List.perm_insertionSort partLE (order.map fun i => (⟨i + 1, etags i⟩ : Part))).map
      Part.partNumber
    have h2 : ((order.map fun i => (⟨i + 1, etags i⟩ : Part)).map Part.partNumber)
        = order.map fun i => i + 1 := by
      rw [List.map_map]; rfl
    have h3 : (order.map fun i => i + 1).Perm ((List.range n).map fun i => i + 1) :=
      horder.map _
    have h4 : ((List.range n).map fun i => i + 1) = List.range' 1 n := by
      rw [List.range'_eq_map_range]
      exact List.map_congr_left fun a _ => Nat.add_comm a 1
    rw [h2] at h1
    rw [h4] at h3
    exact h1.trans h3
  · exact (List.sorted_insertionSort partLE _).map Part.partNumber fun _ _ h => h
  · exact (List.pairwise_lt_range' 1 n).imp fun h => Nat.le_of_lt h

theorem fold_uploads (key uid : String) (data : List Nat) (ps : Nat) :
    ∀ (order : List Nat) (st : StoreState),
      (order.map fun i =>
        ObsEvent.uploadPart key uid (i + 1) (partSlice data ps i)).foldl stepStore st
        = { st with uploaded :=
            (order.map fun i => (i + 1, partSlice data ps i)).reverse ++ st.uploaded } := by
  intro order
  induction order with
  | nil => intro st; simp
  | cons i rest ih =>
    intro st
    simp only [List.map_cons, List.foldl_cons, stepStore, ih, List.reverse_cons]
    simp

theorem multipart_storedContent (env : MultipartEnv) (order : List Nat) (key : String)
    (data : List Nat) (ps0 c0 : Int) (uid : String) (etags : Nat → String)
    (hbig : defaultedPartSize ps0 < (data.length : Int))
    (hinit : env.initResult = .ok uid)
    (hcomp : env.completeResult = .ok ())
    (hall : ∀ i < partCountNat data ps0, env.uploadPart (i + 1) 0 = .ok (etags i))
    (horder : order.Perm (List.range (partCountNat data ps0))) :
    storedContent (PutBytesMultipart env order key data ps0 c0).2 = some data := by
  have hps : 0 < (defaultedPartSize ps0).toNat := by
    have := defaultedPartSize_pos ps0
    omega
  set ps : Nat := (defaultedPartSize ps0).toNat with hpsdef
  set pc : Nat := partCountNat data ps0 with hpcdef
  rw [multipart_success_eq env order key data ps0 c0 uid etags hbig hinit hcomp hall horder]
  set sortedParts := List.insertionSort partLE (order.map fun i => (⟨i + 1, etags i⟩ : Part))
    with hsorted
  unfold storedContent
  dsimp only
  have hinitstep : stepStore ⟨[], none⟩ (ObsEvent.initiate key) = ⟨[], none⟩ := rfl
  simp only [List.foldl_cons, List.foldl_append, hinitstep, fold_uploads]
  set uploaded : List (Nat × List Nat) :=
    (order.map fun i => (i + 1, partSlice data ps i)).reverse with huploaded
  have hordernd : order.Nodup := horder.symm.nodup (List.nodup_range pc)
  have hkeysnd : (uploaded.map Prod.fst).Nodup := by
    rw [huploaded, List.map_reverse, List.nodup_reverse, List.map_map]
    have : ((fun p : Nat × List Nat => p.1) ∘ fun i => (i + 1, partSlice data ps i))
        = fun i => i + 1 := rfl
    rw [this]
    exact hordernd.map fun a b hab => by omega
  have hlookup : ∀ i < pc, uploaded.lookup (i + 1) = some (partSlice data ps i) := by
    intro i hi
    apply lookup_eq_of_mem_of_nodup _ _ _ hkeysnd
    rw [huploaded, List.mem_reverse, List.mem_map]
    exact ⟨i, horder.mem_iff.mpr (List.mem_range.mpr hi), rfl⟩
  simp only [List.foldl_cons, List.foldl_nil, stepStore]
  have hbody : (sortedParts.map fun p => (uploaded.lookup p.partNumber).getD [])
      = (List.range pc).map (partSlice data ps) := by
    have hcomp2 : (sortedParts.map fun p => (uploaded.lookup p.partNumber).getD [])
        = (sortedParts.map Part.partNumber).map fun n => (uploaded.lookup n).getD [] := by
      rw [List.map_map]; rfl
    rw [hcomp2, hsorted, sorted_parts_map_range order pc etags horder,
      List.range'_eq_map_range, List.map_map]
    apply List.map_congr_left
    intro a ha
    have hlt : a < pc := List.mem_range.mp ha
    have h1a : 1 + a = a + 1 := Nat.add_comm 1 a
    simp only [Function.comp_apply, h1a, hlookup a hlt, Option.getD_some]
  simp only [List.append_nil]
  rw [hbody]
  have hflat : ((List.range pc).map (partSlice data ps)).flatten = data := by
    rw [hpcdef]
    unfold partCountNat
    exact partSlice_flatten_eq data ps hps
  simp [hflat]

/-! ### Shape of the multipart event trace -/

theorem multipart_events_shape (env : MultipartEnv) (order : List Nat) (key : String)
    (data : List Nat) (ps0 c0 : Int) (uid : String)
    (hbig : defaultedPartSize ps0 < (data.length : Int))
    (hinit : env.initResult = .ok uid) :
    ∃ tail : List ObsEvent,
      (PutBytesMultipart env order key data ps0 c0).2 =
        ObsEvent.initiate key ::
          (order.map fun i =>
            ObsEvent.uploadPart key uid (i + 1)
              (partSlice data (defaultedPartSize ps0).toNat i)) ++ tail ∧
      ∀ e ∈ tail, isUploadPartEv e = false := by
  have hnotle : ¬ ((data.length : Int) ≤ defaultedPartSize ps0) := not_le.mpr hbig
  simp only [PutBytesMultipart, hinit]
  rw [if_neg hnotle]
  split
  · cases hcol : (collectParts env.uploadPart order).2 with
    | none =>
      refine ⟨[ObsEvent.abort key uid], by simp [hcol], ?_⟩
      intro e he
      simp only [List.mem_singleton] at he
      subst he; rfl
    | some err =>
      refine ⟨[ObsEvent.abort key uid], by simp [hcol], ?_⟩
      intro e he
      simp only [List.mem_singleton] at he
      subst he; rfl
  · cases hcomp : env.completeResult with
    | ok u =>
      refine ⟨[ObsEvent.complete key uid
        (List.insertionSort partLE (collectParts env.uploadPart order).1)], by simp [hcomp], ?_⟩
      intro e he
      simp only [List.mem_singleton] at he
      subst he; rfl
    | error err =>
      refine ⟨[ObsEvent.complete key uid
        (List.insertionSort partLE (collectParts env.uploadPart order).1)], by simp [hcomp], ?_⟩
      intro e he
      simp only [List.mem_singleton] at he
      subst he; rfl

theorem countP_eq_one_of_nodup_mem {α : Type} (q : α → Bool) (a : α) :
    ∀ l : List α, l.Nodup → a ∈ l → (∀ b ∈ l, q b = true ↔ b = a) →
      l.countP q = 1 := by
  intro l
  induction l with
  | nil => intro _ ha; cases ha
  | cons x xs ih =>
    intro hnd hmem hq
    rw [List.nodup_cons] at hnd
    rcases List.mem_cons.mp hmem with rfl | hmemxs
    · rw [List.countP_cons, if_pos ((hq a (List.mem_cons_self a xs)).mpr rfl)]
      have hz : xs.countP q = 0 := by
        rw [List.countP_eq_zero]
        intro b hb hqb
        exact hnd.1 (((hq b (List.mem_cons_of_mem _ hb)).mp hqb) ▸ hb)
      omega
    · rw [List.countP_cons, if_neg]
      · have := ih hnd.2 hmemxs fun b hb => hq b (List.mem_cons_of_mem _ hb)
        omega
      · intro hqx
        have := (hq x (List.mem_cons_self x xs)).mp hqx
        subst this
        exact hnd.1 hmemxs

theorem multipart_upload_once (env : MultipartEnv) (order : List Nat) (key : String)
    (data : List Nat) (ps0 c0 : Int) (uid : String) (p : Nat)
    (hbig : defaultedPartSize ps0 < (data.length : Int))
    (hinit : env.initResult = .ok uid)
    (horder : order.Perm (List.range (partCountNat data ps0)))
    (hp1 : 0 < p) (hp2 : p ≤ partCountNat data ps0) :
    (PutBytesMultipart env order key data ps0 c0).2.countP (isUploadNumEv p) = 1 ∧
    ∀ e ∈ (PutBytesMultipart env order key data ps0 c0).2, isUploadNumEv p e = true →
      e = ObsEvent.uploadPart key uid p
        (partSlice data (defaultedPartSize ps0).toNat (p - 1)) := by
  obtain ⟨tail, hshape, htail⟩ :=
    multipart_events_shape env order key data ps0 c0 uid hbig hinit
  have hordernd : order.Nodup := horder.symm.nodup (List.nodup_range _)
  have hpmem : p - 1 ∈ order :=
    horder.mem_iff.mpr (List.mem_range.mpr (by omega))
  rw [hshape]
  constructor
  · have htail0 : tail.countP (isUploadNumEv p) = 0 := by
      rw [List.countP_eq_zero]
      intro e he hnum
      have : isUploadPartEv e = true := by
        cases e <;> simp_all [isUploadNumEv, isUploadPartEv]
      rw [htail e he] at this
      exact Bool.false_ne_true this
    have hcount : order.countP
        ((isUploadNumEv p) ∘ fun i =>
          ObsEvent.uploadPart key uid (i + 1)
            (partSlice data (defaultedPartSize ps0).toNat i)) = 1 := by
      apply countP_eq_one_of_nodup_mem _ (p - 1) order hordernd hpmem
      intro b _
      simp only [Function.comp_apply, isUploadNumEv, decide_eq_true_eq]
      omega
    simp only [List.countP_cons, List.countP_append, htail0, List.countP_map, hcount]
    rfl
  · intro e he hnum
    rcases List.mem_cons.mp he with rfl | he2
    · exact absurd hnum (by simp [isUploadNumEv])
    rcases List.mem_append.mp he2 with hemap | hetail
    · obtain ⟨i, _, rfl⟩ := List.mem_map.mp hemap
      simp only [isUploadNumEv, decide_eq_true_eq] at hnum
      have : i = p - 1 := by omega
      subst this
      have : p - 1 + 1 = p := by omega
      rw [this]
    · have : isUploadPartEv e = true := by
        cases e <;> simp_all [isUploadNumEv, isUploadPartEv]
      rw [htail e hetail] at this
      exact absurd this Bool.false_ne_true

/-! ### Retry-loop characterisation -/

theorem putLoop_ok (env : Nat → AttemptOutcome) (mr : Nat) (rd : Int)
    (attempt : Nat) (le : Option ObsErr) (v : Nat)
    (h : attempt ≤ mr) (hv : env attempt = .ok v) :
    putLoop env mr rd attempt le =
      ⟨.ok v, 1, if attempt = 0 then [] else [rd * 2 ^ (attempt - 1)]⟩ := by
  rw [putLoop, dif_pos h, hv]

theorem putLoop_fail_retry (env : Nat → AttemptOutcome) (mr : Nat) (rd : Int)
    (attempt : Nat) (le : Option ObsErr) (e : ObsErr)
    (h : attempt ≤ mr) (he : env attempt = .fail e)
    (hc : attempt < mr ∧ isRetryable e = true) :
    putLoop env mr rd attempt le =
      ⟨(putLoop env mr rd (attempt + 1) (some e)).result,
       (putLoop env mr rd (attempt + 1) (some e)).invocations + 1,
       (if attempt = 0 then [] else [rd * 2 ^ (attempt - 1)]) ++
         (putLoop env mr rd (attempt + 1) (some e)).sleeps⟩ := by
  conv_lhs => rw [putLoop]
  rw [dif_pos h, he]
  dsimp only
  rw [if_pos hc]

theorem putLoop_fail_stop (env : Nat → AttemptOutcome) (mr : Nat) (rd : Int)
    (attempt : Nat) (le : Option ObsErr) (e : ObsErr)
    (h : attempt ≤ mr) (he : env attempt = .fail e)
    (hc : ¬ (attempt < mr ∧ isRetryable e = true)) :
    putLoop env mr rd attempt le =
      ⟨.error e, 1, if attempt = 0 then [] else [rd * 2 ^ (attempt - 1)]⟩ := by
  conv_lhs => rw [putLoop]
  rw [dif_pos h, he]
  dsimp only
  rw [if_neg hc]

theorem putLoop_timeout_retry (env : Nat → AttemptOutcome) (mr : Nat) (rd : Int)
    (attempt : Nat) (le : Option ObsErr)
    (h : attempt ≤ mr) (he : env attempt = .timedOut) (hc : attempt < mr) :
    putLoop env mr rd attempt le =
      ⟨(putLoop env mr rd (attempt + 1) (some .timeoutErr)).result,
       (putLoop env mr rd (attempt + 1) (some .timeoutErr)).invocations + 1,
       (if attempt = 0 then [] else [rd * 2 ^ (attempt - 1)]) ++
         (putLoop env mr rd (attempt + 1) (some .timeoutErr)).sleeps⟩ := by
  conv_lhs => rw [putLoop]
  rw [dif_pos h, he]
  dsimp only
  rw [if_pos hc]

theorem putLoop_timeout_stop (env : Nat → AttemptOutcome) (mr : Nat) (rd : Int)
    (attempt : Nat) (le : Option ObsErr)
    (h : attempt ≤ mr) (he : env attempt = .timedOut) (hc : ¬ attempt < mr) :
    putLoop env mr rd attempt le =
      ⟨.error .timeoutErr, 1, if attempt = 0 then [] else [rd * 2 ^ (attempt - 1)]⟩ := by
  conv_lhs => rw [putLoop]
  rw [dif_pos h, he]
  dsimp only
  rw [if_neg hc]

theorem putLoop_exit (env : Nat → AttemptOutcome) (mr : Nat) (rd : Int)
    (attempt : Nat) (le : Option ObsErr) (h : ¬ attempt ≤ mr) :
    putLoop env mr rd attempt le =
      ⟨.error (.aggregate mr (le.getD .nilError)), 0, []⟩ := by
  rw [putLoop, dif_neg h]

theorem putLoop_all_fail (env : Nat → AttemptOutcome) (mr : Nat) (rd : Int) :
    ∀ (n attempt : Nat) (le : Option ObsErr), mr - attempt = n → attempt ≤ mr →
      (∀ j, attempt ≤ j → j ≤ mr → attemptFails (env j) = true) →
      (putLoop env mr rd attempt le).result = .error (attemptCause (env mr)) ∧
      (putLoop env mr rd attempt le).invocations = mr + 1 - attempt := by
  intro n
  induction n with
  | zero =>
    intro attempt le h0 hle hall
    have heq : attempt = mr := by omega
    subst heq
    have hfail := hall attempt (le_refl _) (le_refl _)
    cases henv : env attempt with
    | ok v => rw [henv] at hfail; simp [attemptFails] at hfail
    | fail e =>
      rw [putLoop_fail_stop env attempt rd attempt le e hle henv
        (fun hc => absurd hc.1 (lt_irrefl _))]
      refine ⟨rfl, ?_⟩
      show (1 : Nat) = attempt + 1 - attempt
      omega
    | timedOut =>
      rw [putLoop_timeout_stop env attempt rd attempt le hle henv (lt_irrefl _)]
      refine ⟨rfl, ?_⟩
      show (1 : Nat) = attempt + 1 - attempt
      omega
  | succ n ih =>
    intro attempt le h0 hle hall
    have hlt : attempt < mr := by omega
    have hfail := hall attempt (le_refl _) hle
    cases henv : env attempt with
    | ok v => rw [henv] at hfail; simp [attemptFails] at hfail
    | fail e =>
      rw [henv] at hfail
      simp only [attemptFails] at hfail
      rw [putLoop_fail_retry env mr rd attempt le e hle henv ⟨hlt, hfail⟩]
      have hrest := ih (attempt + 1) (some e) (by omega) (by omega)
        (fun j hj1 hj2 => hall j (by omega) hj2)
      refine ⟨hrest.1, ?_⟩
      show (putLoop env mr rd (attempt + 1) (some e)).invocations + 1 = mr + 1 - attempt
      rw [hrest.2]
      omega
    | timedOut =>
      rw [putLoop_timeout_retry env mr rd attempt le hle henv hlt]
      have hrest := ih (attempt + 1) (some .timeoutErr) (by omega) (by omega)
        (fun j hj1 hj2 => hall j (by omega) hj2)
      refine ⟨hrest.1, ?_⟩
      show (putLoop env mr rd (attempt + 1) (some ObsErr.timeoutErr)).invocations + 1
        = mr + 1 - attempt
      rw [hrest.2]
      omega

theorem putLoop_success (env : Nat → AttemptOutcome) (mr : Nat) (rd : Int)
    (v N : Nat) (hok : env N = .ok v) (hN : N ≤ mr)
    (hfails : ∀ j < N, ∃ e, env j = .fail e ∧ isRetryable e = true) :
    ∀ (n attempt : Nat) (le : Option ObsErr), N - attempt = n → attempt ≤ N →
      (putLoop env mr rd attempt le).result = .ok v ∧
      (putLoop env mr rd attempt le).invocations = N + 1 - attempt := by
  intro n
  induction n with
  | zero =>
    intro attempt le h0 hle
    have heq : attempt = N := by omega
    subst heq
    rw [putLoop_ok env mr rd attempt le v (by omega) hok]
    refine ⟨rfl, ?_⟩
    show (1 : Nat) = attempt + 1 - attempt
    omega
  | succ n ih =>
    intro attempt le h0 hle
    have hlt : attempt < N := by omega
    obtain ⟨e, henv, hre⟩ := hfails attempt hlt
    rw [putLoop_fail_retry env mr rd attempt le e (by omega) henv ⟨by omega, hre⟩]
    have hrest := ih (attempt + 1) (some e) (by omega) (by omega)
    refine ⟨hrest.1, ?_⟩
    show (putLoop env mr rd (attempt + 1) (some e)).invocations + 1 = N + 1 - attempt
    rw [hrest.2]
    omega

theorem putLoop_invocations_le (env : Nat → AttemptOutcome) (mr : Nat) (rd : Int) :
    ∀ (n attempt : Nat) (le : Option ObsErr), mr + 1 - attempt ≤ n →
      (putLoop env mr rd attempt le).invocations ≤ n := by
  intro n
  induction n with
  | zero =>
    intro attempt le h0
    rw [putLoop_exit env mr rd attempt le (by omega)]
  | succ n ih =>
    intro attempt le h0
    by_cases hle : attempt ≤ mr
    · cases henv : env attempt with
      | ok v => rw [putLoop_ok env mr rd attempt le v hle henv]; simp
      | fail e =>
        by_cases hc : attempt < mr ∧ isRetryable e = true
        · rw [putLoop_fail_retry env mr rd attempt le e hle henv hc]
          have := ih (attempt + 1) (some e) (by omega)
          show (putLoop env mr rd (attempt + 1) (some e)).invocations + 1 ≤ n + 1
          omega
        · rw [putLoop_fail_stop env mr rd attempt le e hle henv hc]
          simp
      | timedOut =>
        by_cases hc : attempt < mr
        · rw [putLoop_timeout_retry env mr rd attempt le hle henv hc]
          have := ih (attempt + 1) (some .timeoutErr) (by omega)
          show (putLoop env mr rd (attempt + 1) (some ObsErr.timeoutErr)).invocations + 1
            ≤ n + 1
          omega
        · rw [putLoop_timeout_stop env mr rd attempt le hle henv hc]
          simp
    · rw [putLoop_exit env mr rd attempt le hle]
      simp

theorem putLoop_sleeps_ge1 (env : Nat → AttemptOutcome) (mr : Nat) (rd : Int) :
    ∀ (n attempt : Nat) (le : Option ObsErr), mr + 1 - attempt = n → 1 ≤ attempt →
      (putLoop env mr rd attempt le).sleeps =
        (List.range' attempt (putLoop env mr rd attempt le).invocations).map
          (fun j => rd * 2 ^ (j - 1)) := by
  intro n
  induction n with
  | zero =>
    intro attempt le h0 h1
    rw [putLoop_exit env mr rd attempt le (by omega)]
    rfl
  | succ n ih =>
    intro attempt le h0 h1
    have hle : attempt ≤ mr := by omega
    have hne : attempt ≠ 0 := by omega
    cases henv : env attempt with
    | ok v =>
      rw [putLoop_ok env mr rd attempt le v hle henv]
      show (if attempt = 0 then ([] : List Int) else [rd * 2 ^ (attempt - 1)])
        = (List.range' attempt 1).map (fun j => rd * 2 ^ (j - 1))
      rw [if_neg hne]
      rfl
    | fail e =>
      by_cases hc : attempt < mr ∧ isRetryable e = true
      · rw [putLoop_fail_retry env mr rd attempt le e hle henv hc]
        show (if attempt = 0 then ([] : List Int) else [rd * 2 ^ (attempt - 1)]) ++
            (putLoop env mr rd (attempt + 1) (some e)).sleeps
          = (List.range' attempt
              ((putLoop env mr rd (attempt + 1) (some e)).invocations + 1)).map
              (fun j => rd * 2 ^ (j - 1))
        rw [if_neg hne, List.range'_succ, List.map_cons,
          ih (attempt + 1) (some e) (by omega) (by omega)]
        rfl
      · rw [putLoop_fail_stop env mr rd attempt le e hle henv hc]
        show (if attempt = 0 then ([] : List Int) else [rd * 2 ^ (attempt - 1)])
          = (List.range' attempt 1).map (fun j => rd * 2 ^ (j - 1))
        rw [if_neg hne]
        rfl
    | timedOut =>
      by_cases hc : attempt < mr
      · rw [putLoop_timeout_retry env mr rd attempt le hle henv hc]
        show (if attempt = 0 then ([] : List Int) else [rd * 2 ^ (attempt - 1)]) ++
            (putLoop env mr rd (attempt + 1) (some ObsErr.timeoutErr)).sleeps
          = (List.range' attempt
              ((putLoop env mr rd (attempt + 1) (some ObsErr.timeoutErr)).invocations + 1)).map
              (fun j => rd * 2 ^ (j - 1))
        rw [if_neg hne, List.range'_succ, List.map_cons,
          ih (attempt + 1) (some ObsErr.timeoutErr) (by omega) (by omega)]
        rfl
      · rw [putLoop_timeout_stop env mr rd attempt le hle henv hc]
        show (if attempt = 0 then ([] : List Int) else [rd * 2 ^ (attempt - 1)])
          = (List.range' attempt 1).map (fun j => rd * 2 ^ (j - 1))
        rw [if_neg hne]
        rfl

theorem putLoop_sleeps_zero (env : Nat → AttemptOutcome) (mr : Nat) (rd : Int)
    (le : Option ObsErr) :
    (putLoop env mr rd 0 le).sleeps =
      (List.range ((putLoop env mr rd 0 le).invocations - 1)).map
        (fun k => rd * 2 ^ k) := by
  have hle : 0 ≤ mr := Nat.zero_le mr
  have hrest : ∀ l2 : Option ObsErr,
      (putLoop env mr rd 1 l2).sleeps =
        (List.range' 1 (putLoop env mr rd 1 l2).invocations).map
          (fun j => rd * 2 ^ (j - 1)) :=
    fun l2 => putLoop_sleeps_ge1 env mr rd (mr + 1 - 1) 1 l2 rfl (le_refl 1)
  have hshift : ∀ l2 : Option ObsErr,
      (List.range' 1 (putLoop env mr rd 1 l2).invocations).map
          (fun j => rd * 2 ^ (j - 1))
        = (List.range ((putLoop env mr rd 1 l2).invocations)).map
          (fun k => rd * 2 ^ k) := by
    intro l2
    rw [List.range'_eq_map_range, List.map_map]
    apply List.map_congr_left
    intro a _
    simp only [Function.comp_apply]
    have h1 : 1 + a - 1 = a := by omega
    rw [h1]
  cases henv : env 0 with
  | ok v =>
    rw [putLoop_ok env mr rd 0 le v hle henv]
    rfl
  | fail e =>
    by_cases hc : 0 < mr ∧ isRetryable e = true
    · rw [putLoop_fail_retry env mr rd 0 le e hle henv hc]
      show (if (0 : Nat) = 0 then ([] : List Int) else [rd * 2 ^ (0 - 1)]) ++
          (putLoop env mr rd 1 (some e)).sleeps
        = (List.range ((putLoop env mr rd 1 (some e)).invocations + 1 - 1)).map
            (fun k => rd * 2 ^ k)
      rw [if_pos rfl, List.nil_append, hrest (some e), hshift (some e)]
      have h2 : (putLoop env mr rd 1 (some e)).invocations + 1 - 1
          = (putLoop env mr rd 1 (some e)).invocations := by omega
      rw [h2]
    · rw [putLoop_fail_stop env mr rd 0 le e hle henv hc]
      rfl
  | timedOut =>
    by_cases hc : 0 < mr
    · rw [putLoop_timeout_retry env mr rd 0 le hle henv hc]
      show (if (0 : Nat) = 0 then ([] : List Int) else [rd * 2 ^ (0 - 1)]) ++
          (putLoop env mr rd 1 (some ObsErr.timeoutErr)).sleeps
        = (List.range ((putLoop env mr rd 1 (some ObsErr.timeoutErr)).invocations + 1 - 1)).map
            (fun k => rd * 2 ^ k)
      rw [if_pos rfl, List.nil_append, hrest (some ObsErr.timeoutErr),
        hshift (some ObsErr.timeoutErr)]
      have h2 : (putLoop env mr rd 1 (some ObsErr.timeoutErr)).invocations + 1 - 1
          = (putLoop env mr rd 1 (some ObsErr.timeoutErr)).invocations := by omega
      rw [h2]
    · rw [putLoop_timeout_stop env mr rd 0 le hle henv hc]
      rfl

theorem PutBytesWithRetry_pos_eq (env : Nat → AttemptOutcome) (mr0 rd0 : Int)
    (hmr : 0 < mr0) (hrd : 0 < rd0) :
    PutBytesWithRetry env mr0 rd0 = putLoop env mr0.toNat rd0 0 none := by
  unfold PutBytesWithRetry
  rw [if_neg (by omega), if_neg (by omega)]

/-! ### Helpers for the claim theorems -/

theorem findSome_completeProj (k2 u2 : String) (pl : List Part) :
    ∀ ups : List ObsEvent, (∀ e ∈ ups, completeProj e = none) →
      (ups ++ [ObsEvent.complete k2 u2 pl]).findSome? completeProj = some pl := by
  intro ups
  induction ups with
  | nil => intro _; rfl
  | cons e es ih =>
    intro h
    have hpe : completeProj e = none := h e (List.mem_cons_self e es)
    rw [List.cons_append, List.findSome?_cons, hpe]
    exact ih fun x hx => h x (List.mem_cons_of_mem e hx)

theorem completedPartsIn_eq (key : String) (ups : List ObsEvent)
    (h : ∀ e ∈ ups, isUploadPartEv e = true) (k2 u2 : String) (pl : List Part) :
    completedPartsIn (ObsEvent.initiate key :: ups ++ [ObsEvent.complete k2 u2 pl])
      = some pl := by
  unfold completedPartsIn
  rw [List.cons_append, List.findSome?_cons]
  have hnone : ∀ e ∈ ups, completeProj e = none := by
    intro e he
    have := h e he
    cases e <;> simp_all [isUploadPartEv, completeProj]
  exact findSome_completeProj k2 u2 pl ups hnone

theorem multipart_fail_run (env : MultipartEnv) (order : List Nat) (key : String)
    (data : List Nat) (ps0 c0 : Int) (uid : String)
    (hbig : defaultedPartSize ps0 < (data.length : Int))
    (hinit : env.initResult = .ok uid)
    (hmis : (collectParts env.uploadPart order).2.isSome = true ∨
      (collectParts env.uploadPart order).1.length ≠ partCountNat data ps0) :
    (PutBytesMultipart env order key data ps0 c0).1.isSome = true ∧
    (PutBytesMultipart env order key data ps0 c0).2.countP isAbortEv = 1 ∧
    (PutBytesMultipart env order key data ps0 c0).2.countP isCompleteEv = 0 := by
  have hnotle : ¬ ((data.length : Int) ≤ defaultedPartSize ps0) := not_le.mpr hbig
  have hmapA : (order.map fun i =>
      ObsEvent.uploadPart key uid (i + 1)
        (partSlice data (defaultedPartSize ps0).toNat i)).countP isAbortEv = 0 := by
    rw [List.countP_eq_zero]
    intro e he
    obtain ⟨i, _, rfl⟩ := List.mem_map.mp he
    simp [isAbortEv]
  have hmapC : (order.map fun i =>
      ObsEvent.uploadPart key uid (i + 1)
        (partSlice data (defaultedPartSize ps0).toNat i)).countP isCompleteEv = 0 := by
    rw [List.countP_eq_zero]
    intro e he
    obtain ⟨i, _, rfl⟩ := List.mem_map.mp he
    simp [isCompleteEv]
  simp only [PutBytesMultipart, hinit]
  rw [if_neg hnotle, if_pos hmis]
  cases hcol : (collectParts env.uploadPart order).2 with
  | none =>
    refine ⟨rfl, ?_, ?_⟩
    · simp [List.countP_cons, List.countP_append, hmapA, isAbortEv]
    · simp [List.countP_cons, List.countP_append, hmapC, isCompleteEv]
  | some e =>
    refine ⟨rfl, ?_, ?_⟩
    · simp [List.countP_cons, List.countP_append, hmapA, isAbortEv]
    · simp [List.countP_cons, List.countP_append, hmapC, isCompleteEv]

/-! ### Claim theorems -/

/-- C1: for every payload larger than the (defaulted) part size, a
successful `PutBytesMultipart` splits the data into
`partCount = ceil(len/partSize)` contiguous parts, part `i` (1-based)
carrying the byte range `[(i-1)*partSize, min(i*partSize, len))`, uploaded
exactly once each; the parts are committed in order `1..partCount`, and the
assembled stored object equals the payload exactly; in particular a 120 MiB
payload with a 50 MiB part size yields 3 parts of 50, 50 and 20 MiB
committed in order `[1, 2, 3]`. -/
theorem putBytesMultipart_splits (env : MultipartEnv) (order : List Nat) (key : String)
    (data : List Nat) (ps0 c0 : Int) (uid : String) (etags : Nat → String)
    (hbig : defaultedPartSize ps0 < (data.length : Int))
    (hinit : env.initResult = .ok uid)
    (hcomp : env.completeResult = .ok ())
    (hall : ∀ i < partCountNat data ps0, env.uploadPart (i + 1) 0 = .ok (etags i))
    (horder : order.Perm (List.range (partCountNat data ps0))) :
    (PutBytesMultipart env order key data ps0 c0).1 = none ∧
    (∃ pl, completedPartsIn (PutBytesMultipart env order key data ps0 c0).2 = some pl ∧
      pl.map Part.partNumber = List.range' 1 (partCountNat data ps0)) ∧
    (∀ p, 0 < p → p ≤ partCountNat data ps0 →
      (PutBytesMultipart env order key data ps0 c0).2.countP (isUploadNumEv p) = 1 ∧
      ∀ e ∈ (PutBytesMultipart env order key data ps0 c0).2, isUploadNumEv p e = true →
        e = ObsEvent.uploadPart key uid p
          (partSlice data (defaultedPartSize ps0).toNat (p - 1))) ∧
    storedContent (PutBytesMultipart env order key data ps0 c0).2 = some data ∧
    (data.length = 125829120 → ps0 = 52428800 →
      partCountNat data ps0 = 3 ∧
      (partSlice data (defaultedPartSize ps0).toNat 0).length = 52428800 ∧
      (partSlice data (defaultedPartSize ps0).toNat 1).length = 52428800 ∧
      (partSlice data (defaultedPartSize ps0).toNat 2).length = 20971520 ∧
      ∃ pl, completedPartsIn (PutBytesMultipart env order key data ps0 c0).2 = some pl ∧
        pl.map Part.partNumber = [1, 2, 3]) := by
  have hseq := multipart_success_eq env order key data ps0 c0 uid etags hbig hinit hcomp
    hall horder
  have hplmap := sorted_parts_map_range order (partCountNat data ps0) etags horder
  have hupmem : ∀ e ∈ (order.map fun i =>
      ObsEvent.uploadPart key uid (i + 1) (partSlice data (defaultedPartSize ps0).toNat i)),
      isUploadPartEv e = true := by
    intro e he
    obtain ⟨i, _, rfl⟩ := List.mem_map.mp he
    rfl
  have hcp : completedPartsIn (PutBytesMultipart env order key data ps0 c0).2 =
      some (List.insertionSort partLE (order.map fun i => ⟨i + 1, etags i⟩)) := by
    rw [hseq]
    exact completedPartsIn_eq key _ hupmem _ _ _
  refine ⟨by rw [hseq], ⟨_, hcp, hplmap⟩, ?_,
    multipart_storedContent env order key data ps0 c0 uid etags hbig hinit hcomp hall horder,
    ?_⟩
  · intro p hp1 hp2
    exact multipart_upload_once env order key data ps0 c0 uid p hbig hinit horder hp1 hp2
  · intro hlen hps
    subst hps
    have hpc : partCountNat data 52428800 = 3 := by
      unfold partCountNat defaultedPartSize defaultPartSize
      rw [hlen]
      decide
    have hX : ((defaultedPartSize (52428800 : Int)).toNat) = 52428800 := by decide
    have hsl : ∀ i : Nat, (partSlice data 52428800 i).length
        = min 52428800 (125829120 - i * 52428800) := by
      intro i
      rw [partSlice, List.length_take, List.length_drop, hlen]
    rw [hpc] at hplmap
    refine ⟨hpc, ?_, ?_, ?_, _, hcp, by rw [hplmap]; decide⟩
    · rw [hX, hsl 0]; omega
    · rw [hX, hsl 1]; omega
    · rw [hX, hsl 2]; omega

def envC1w : MultipartEnv :=
  { putObjectResult := .ok ()
    initResult := .ok "uid"
    uploadPart := fun _ _ => .ok "e"
    completeResult := .ok ()
    abortResult := .ok () }

def dataC1w : List Nat := [0, 1, 2, 3, 4, 5, 6]

theorem putBytesMultipart_splits_witness :
    defaultedPartSize 3 < ((dataC1w.length : Nat) : Int) ∧
    envC1w.initResult = .ok "uid" ∧
    envC1w.completeResult = .ok () ∧
    (∀ i < partCountNat dataC1w 3, envC1w.uploadPart (i + 1) 0 = .ok ((fun _ => "e") i)) ∧
    ([1, 2, 0] : List Nat).Perm (List.range (partCountNat dataC1w 3)) ∧
    storedContent (PutBytesMultipart envC1w [1, 2, 0] "k" dataC1w 3 2).2 = some dataC1w :=
  ⟨by decide, rfl, rfl, by decide, by decide,
    (putBytesMultipart_splits envC1w [1, 2, 0] "k" dataC1w 3 2 "uid" (fun _ => "e")
      (by decide) rfl rfl (by decide) (by decide)).2.2.2.1⟩

/-- C2: if any part-upload task fails, or the collected part count does not
match the expected count, `PutBytesMultipart` aborts the session exactly
once, never calls complete, returns a non-nil error, and the outcome does
not depend on whether the abort itself fails. -/
theorem putBytesMultipart_abort_on_failure (env : MultipartEnv) (order : List Nat)
    (key : String) (data : List Nat) (ps0 c0 : Int) (uid : String)
    (hbig : defaultedPartSize ps0 < (data.length : Int))
    (hinit : env.initResult = .ok uid)
    (horder : order.Perm (List.range (partCountNat data ps0)))
    (hfail : (∃ i, i < partCountNat data ps0 ∧
        ∀ t, env.uploadPart (i + 1) 0 ≠ .ok t) ∨
      (collectParts env.uploadPart order).1.length ≠ partCountNat data ps0) :
    (PutBytesMultipart env order key data ps0 c0).1.isSome = true ∧
    (PutBytesMultipart env order key data ps0 c0).2.countP isAbortEv = 1 ∧
    (PutBytesMultipart env order key data ps0 c0).2.countP isCompleteEv = 0 ∧
    ∀ ar, PutBytesMultipart { env with abortResult := ar } order key data ps0 c0
      = PutBytesMultipart env order key data ps0 c0 := by
  have hmis : (collectParts env.uploadPart order).2.isSome = true ∨
      (collectParts env.uploadPart order).1.length ≠ partCountNat data ps0 := by
    rcases hfail with ⟨i, hi, hf⟩ | h
    · exact Or.inl (collectParts_err_isSome env.uploadPart order i
        (horder.mem_iff.mpr (List.mem_range.mpr hi)) hf)
    · exact Or.inr h
  have hrun := multipart_fail_run env order key data ps0 c0 uid hbig hinit hmis
  exact ⟨hrun.1, hrun.2.1, hrun.2.2, fun _ => rfl⟩

def envC2w : MultipartEnv :=
  { putObjectResult := .ok ()
    initResult := .ok "uid"
    uploadPart := fun p _ => if p = 2 then .error (.simple "fatal") else .ok "e"
    completeResult := .ok ()
    abortResult := .error (.simple "abort also failed") }

theorem putBytesMultipart_abort_on_failure_witness :
    defaultedPartSize 1 < (([1, 2, 3] : List Nat).length : Int) ∧
    envC2w.initResult = .ok "uid" ∧
    ([0, 1, 2] : List Nat).Perm (List.range (partCountNat [1, 2, 3] 1)) ∧
    (collectParts envC2w.uploadPart [0, 1, 2]).1.length ≠ partCountNat [1, 2, 3] 1 ∧
    ((PutBytesMultipart envC2w [0, 1, 2] "k" [1, 2, 3] 1 1).1.isSome = true ∧
      (PutBytesMultipart envC2w [0, 1, 2] "k" [1, 2, 3] 1 1).2.countP isAbortEv = 1 ∧
      (PutBytesMultipart envC2w [0, 1, 2] "k" [1, 2, 3] 1 1).2.countP isCompleteEv = 0 ∧
      ∀ ar, PutBytesMultipart { envC2w with abortResult := ar } [0, 1, 2] "k" [1, 2, 3] 1 1
        = PutBytesMultipart envC2w [0, 1, 2] "k" [1, 2, 3] 1 1) :=
  ⟨by decide, rfl, by decide, by decide,
    putBytesMultipart_abort_on_failure envC2w [0, 1, 2] "k" [1, 2, 3] 1 1 "uid"
      (by decide) rfl (by decide) (Or.inr (by decide))⟩

def envC3cex : Nat → AttemptOutcome := fun _ => .fail (.simple "503 x")

/-- C3 counterexample: with `maxRetries = 1` and every attempt failing with
the retryable error "503 x", `PutBytesWithRetry` returns the bare last
error; the aggregate error wrapping the last cause and stating the attempt
count (line 224 of the source) is never produced. -/
theorem putBytesWithRetry_no_aggregate_cex :
    (∀ j : Nat, attemptFails (envC3cex j) = true) ∧
    (PutBytesWithRetry envC3cex 1 1).result = .error (.simple "503 x") ∧
    isAggregateErr (.simple "503 x") = false := by
  refine ⟨fun j => rfl, ?_, rfl⟩
  have htn : ((1 : Int)).toNat = 1 := rfl
  have h0 := putLoop_fail_retry envC3cex 1 1 0 none (.simple "503 x") (by omega) rfl
    ⟨by omega, by decide⟩
  have h1 := putLoop_fail_stop envC3cex 1 1 1 (some (.simple "503 x")) (.simple "503 x")
    (by omega) rfl (fun h => absurd h.1 (by omega))
  rw [PutBytesWithRetry_pos_eq envC3cex 1 1 (by omega) (by omega), htn, h0]
  show (putLoop envC3cex 1 1 1 (some (.simple "503 x"))).result = _
  rw [h1]

/-- C3 (amended): when every attempt of `PutBytesWithRetry` fails with a
retryable error or a per-attempt timeout, the call makes `maxRetries + 1`
attempts and returns the last observed cause itself (the final attempt's
error, or the timeout error) — not wrapped in an aggregate error; the
aggregate-error return after the loop is unreachable. -/
theorem putBytesWithRetry_exhaustion_last_error (env : Nat → AttemptOutcome)
    (mr0 rd0 : Int) (hmr : 0 < mr0) (hrd : 0 < rd0)
    (hall : ∀ j ≤ mr0.toNat, attemptFails (env j) = true) :
    (PutBytesWithRetry env mr0 rd0).result = .error (attemptCause (env mr0.toNat)) ∧
    (PutBytesWithRetry env mr0 rd0).invocations = mr0.toNat + 1 := by
  rw [PutBytesWithRetry_pos_eq env mr0 rd0 hmr hrd]
  have h := putLoop_all_fail env mr0.toNat rd0 mr0.toNat 0 none rfl (by omega)
    (fun j _ hj => hall j hj)
  exact ⟨h.1, h.2⟩

theorem putBytesWithRetry_exhaustion_last_error_witness :
    (0 : Int) < 2 ∧ (0 : Int) < 1 ∧
    (∀ j ≤ ((2 : Int)).toNat, attemptFails (envC3cex j) = true) ∧
    (PutBytesWithRetry envC3cex 2 1).result
      = .error (attemptCause (envC3cex ((2 : Int)).toNat)) ∧
    (PutBytesWithRetry envC3cex 2 1).invocations = ((2 : Int)).toNat + 1 := by
  have h := putBytesWithRetry_exhaustion_last_error envC3cex 2 1 (by decide) (by decide)
    (fun j _ => rfl)
  exact ⟨by decide, by decide, fun j _ => rfl, h.1, h.2⟩

/-- C4: with positive `maxRetries` and `retryDelay`, `PutBytesWithRetry`
launches the put at most `maxRetries + 1` times, sleeps
`retryDelay * 2^(k-1)` before the k-th retry, and when the operation fails
with a retryable error on attempts `1..N` (`N < maxRetries`) and then
succeeds, it returns that success after exactly `N + 1` invocations. -/
theorem putBytesWithRetry_backoff (env : Nat → AttemptOutcome) (mr0 rd0 : Int)
    (hmr : 0 < mr0) (hrd : 0 < rd0) :
    (PutBytesWithRetry env mr0 rd0).invocations ≤ mr0.toNat + 1 ∧
    (PutBytesWithRetry env mr0 rd0).sleeps =
      (List.range ((PutBytesWithRetry env mr0 rd0).invocations - 1)).map
        (fun k => rd0 * 2 ^ k) ∧
    ∀ (N v : Nat), N < mr0.toNat →
      (∀ j < N, ∃ e, env j = .fail e ∧ isRetryable e = true) →
      env N = .ok v →
      (PutBytesWithRetry env mr0 rd0).result = .ok v ∧
      (PutBytesWithRetry env mr0 rd0).invocations = N + 1 := by
  rw [PutBytesWithRetry_pos_eq env mr0 rd0 hmr hrd]
  refine ⟨?_, ?_, ?_⟩
  · exact putLoop_invocations_le env mr0.toNat rd0 (mr0.toNat + 1) 0 none (by omega)
  · exact putLoop_sleeps_zero env mr0.toNat rd0 none
  · intro N v hN hfails hok
    have h := putLoop_success env mr0.toNat rd0 v N hok (by omega) hfails N 0 none rfl
      (by omega)
    exact ⟨h.1, h.2⟩

def envC4w : Nat → AttemptOutcome :=
  fun n => if n < 2 then .fail (.simple "503 x") else .ok 7

theorem putBytesWithRetry_backoff_witness :
    (0 : Int) < 3 ∧ (0 : Int) < 2 ∧
    (PutBytesWithRetry envC4w 3 2).result = .ok 7 ∧
    (PutBytesWithRetry envC4w 3 2).invocations = 2 + 1 := by
  have hfails : ∀ j < 2, ∃ e, envC4w j = .fail e ∧ isRetryable e = true := by
    intro j hj
    refine ⟨.simple "503 x", ?_, by decide⟩
    interval_cases j <;> rfl
  have h := (putBytesWithRetry_backoff envC4w 3 2 (by decide) (by decide)).2.2 2 7
    (by decide) hfails (by decide)
  exact ⟨by decide, by decide, h.1, h.2⟩

def envC5cex : MultipartEnv :=
  { putObjectResult := .ok ()
    initResult := .ok "uid"
    uploadPart := fun p k =>
      if p = 1 ∧ k = 0 then .error (.simple "503 busy") else .ok "e1"
    completeResult := .ok ()
    abortResult := .ok () }

/-- C5 counterexample: a part-upload that fails once with a retryable error
(and whose second call would succeed) is not retried inside the task —
`UploadPart` is invoked exactly once for the part and the whole upload
fails, refuting the claim that part tasks are wrapped in a 3-retry
executor. -/
theorem putBytesMultipart_no_retry_cex :
    isRetryable (.simple "503 busy") = true ∧
    envC5cex.uploadPart 1 1 = .ok "e1" ∧
    (PutBytesMultipart envC5cex [0, 1] "k" [10, 20, 30, 40] 2 1).1.isSome = true ∧
    (PutBytesMultipart envC5cex [0, 1] "k" [10, 20, 30, 40] 2 1).2.countP
      (isUploadNumEv 1) = 1 :=
  ⟨by decide, by decide, by decide, by decide⟩

/-- C5 (amended): in `PutBytesMultipart` every dispatched part-upload task
invokes `UploadPart` exactly once, with no retry/backoff wrapper, so a part
that fails with a transient (retryable) error on its single attempt is not
retried and the whole upload fails.  (The fixed 3-attempt retry exists only
in the streaming uploader's `WritePart`.) -/
theorem putBytesMultipart_single_attempt (env : MultipartEnv) (order : List Nat)
    (key : String) (data : List Nat) (ps0 c0 : Int) (uid : String)
    (hbig : defaultedPartSize ps0 < (data.length : Int))
    (hinit : env.initResult = .ok uid)
    (horder : order.Perm (List.range (partCountNat data ps0))) :
    (∀ p, 0 < p → p ≤ partCountNat data ps0 →
      (PutBytesMultipart env order key data ps0 c0).2.countP (isUploadNumEv p) = 1) ∧
    (∀ i e, i < partCountNat data ps0 → env.uploadPart (i + 1) 0 = .error e →
      isRetryable e = true →
      (PutBytesMultipart env order key data ps0 c0).1.isSome = true) := by
  refine ⟨?_, ?_⟩
  · intro p hp1 hp2
    exact (multipart_upload_once env order key data ps0 c0 uid p hbig hinit horder
      hp1 hp2).1
  · intro i e hi herr _
    have hf : ∀ t, env.uploadPart (i + 1) 0 ≠ .ok t := by
      intro t h
      rw [herr] at h
      exact Except.noConfusion h
    have hmis : (collectParts env.uploadPart order).2.isSome = true ∨
        (collectParts env.uploadPart order).1.length ≠ partCountNat data ps0 :=
      Or.inl (collectParts_err_isSome env.uploadPart order i
        (horder.mem_iff.mpr (List.mem_range.mpr hi)) hf)
    exact (multipart_fail_run env order key data ps0 c0 uid hbig hinit hmis).1

theorem putBytesMultipart_single_attempt_witness :
    defaultedPartSize 2 < (([10, 20, 30, 40] : List Nat).length : Int) ∧
    envC5cex.initResult = .ok "uid" ∧
    ([0, 1] : List Nat).Perm (List.range (partCountNat [10, 20, 30, 40] 2)) ∧
    (0 : Nat) < partCountNat [10, 20, 30, 40] 2 ∧
    envC5cex.uploadPart (0 + 1) 0 = .error (.simple "503 busy") ∧
    (PutBytesMultipart envC5cex [0, 1] "k" [10, 20, 30, 40] 2 1).1.isSome = true := by
  refine ⟨by decide, rfl, by decide, by decide, by decide, ?_⟩
  exact (putBytesMultipart_single_attempt envC5cex [0, 1] "k" [10, 20, 30, 40] 2 1 "uid"
    (by decide) rfl (by decide)).2 0 (.simple "503 busy") (by decide) (by decide)
    (by decide)

/-- C6: for every payload no larger than the (defaulted) part size,
`PutBytesMultipart` bypasses multipart entirely and performs a single
direct put of the whole payload — no initiate, no part uploads, no
complete — and the stored content is byte-identical to what the multipart
path stores for the same payload under a part size forcing multiple
parts. -/
theorem putBytesMultipart_small_direct (env : MultipartEnv) (order : List Nat)
    (key : String) (data : List Nat) (ps0 c0 : Int)
    (hsmall : (data.length : Int) ≤ defaultedPartSize ps0) :
    (PutBytesMultipart env order key data ps0 c0).2 = [ObsEvent.putObject key data] ∧
    (env.putObjectResult = .ok () →
      (PutBytesMultipart env order key data ps0 c0).1 = none ∧
      storedContent (PutBytesMultipart env order key data ps0 c0).2 = some data) ∧
    (∀ e, env.putObjectResult = .error e →
      (PutBytesMultipart env order key data ps0 c0).1
        = some (.wrap "obsutil: 上传对象失败" e)) ∧
    ∀ (env2 : MultipartEnv) (order2 : List Nat) (ps2 c2 : Int) (uid : String)
      (etags : Nat → String),
      defaultedPartSize ps2 < (data.length : Int) →
      env2.initResult = .ok uid →
      env2.completeResult = .ok () →
      (∀ i < partCountNat data ps2, env2.uploadPart (i + 1) 0 = .ok (etags i)) →
      order2.Perm (List.range (partCountNat data ps2)) →
      storedContent (PutBytesMultipart env2 order2 key data ps2 c2).2 = some data := by
  refine ⟨?_, ?_, ?_, ?_⟩
  · simp only [PutBytesMultipart]
    rw [if_pos hsmall]
    cases env.putObjectResult <;> rfl
  · intro hok
    simp only [PutBytesMultipart, hok]
    rw [if_pos hsmall]
    exact ⟨rfl, rfl⟩
  · intro e he
    simp only [PutBytesMultipart, he]
    rw [if_pos hsmall]
  · intro env2 order2 ps2 c2 uid etags hbig2 hinit2 hcomp2 hall2 horder2
    exact multipart_storedContent env2 order2 key data ps2 c2 uid etags hbig2 hinit2
      hcomp2 hall2 horder2

def envC6w : MultipartEnv :=
  { putObjectResult := .ok ()
    initResult := .ok "uid"
    uploadPart := fun _ _ => .ok "e"
    completeResult := .ok ()
    abortResult := .ok () }

theorem putBytesMultipart_small_direct_witness :
    (([1, 2] : List Nat).length : Int) ≤ defaultedPartSize 5 ∧
    (PutBytesMultipart envC6w [] "k" [1, 2] 5 1).2 = [ObsEvent.putObject "k" [1, 2]] ∧
    storedContent (PutBytesMultipart envC6w [] "k" [1, 2] 5 1).2 = some [1, 2] ∧
    storedContent (PutBytesMultipart envC6w [1, 0] "k" [1, 2] 1 1).2 = some [1, 2] := by
  have h := putBytesMultipart_small_direct envC6w [] "k" [1, 2] 5 1 (by decide)
  exact ⟨by decide, h.1, (h.2.1 rfl).2,
    h.2.2.2 envC6w [1, 0] 1 1 "uid" (fun _ => "e") (by decide) rfl rfl (by decide)
      (by decide)⟩

theorem insertionSort_numbers_sorted (parts : List Part) :
    List.Sorted (· ≤ ·) ((List.insertionSort partLE parts).map Part.partNumber) :=
  (List.sorted_insertionSort partLE parts).map Part.partNumber fun _ _ h => h

/-- C7: in both the bulk uploader and the streaming uploader, every commit
submits its parts list to the complete call sorted in ascending order of
part number, regardless of the order in which the part uploads completed
or were recorded. -/
theorem commit_sorted (env : MultipartEnv) (order : List Nat) (key : String)
    (data : List Nat) (ps0 c0 : Int) (senv : StreamEnv) (su : StreamingUploader) :
    (∀ k u pl, ObsEvent.complete k u pl ∈ (PutBytesMultipart env order key data ps0 c0).2 →
      List.Sorted (· ≤ ·) (pl.map Part.partNumber)) ∧
    (∀ k u pl, ObsEvent.complete k u pl ∈ (Complete senv su).2.2 →
      List.Sorted (· ≤ ·) (pl.map Part.partNumber)) := by
  constructor
  · intro k u pl hmem
    simp only [PutBytesMultipart] at hmem
    split at hmem
    · split at hmem <;> simp at hmem
    · split at hmem
      · simp at hmem
      · split at hmem
        · split at hmem <;> simp at hmem
        · split at hmem
          · simp at hmem
            obtain ⟨-, -, rfl⟩ := hmem
            exact insertionSort_numbers_sorted _
          · simp at hmem
            obtain ⟨-, -, rfl⟩ := hmem
            exact insertionSort_numbers_sorted _
  · intro k u pl hmem
    simp only [Complete] at hmem
    split at hmem
    · simp at hmem
    · split at hmem
      · simp at hmem
      · split at hmem
        · simp at hmem
        · split at hmem
          · simp at hmem
          · split at hmem
            · simp at hmem
              obtain ⟨-, -, rfl⟩ := hmem
              exact insertionSort_numbers_sorted _
            · simp at hmem
              obtain ⟨-, -, rfl⟩ := hmem
              exact insertionSort_numbers_sorted _

def envC7w : MultipartEnv :=
  { putObjectResult := .ok ()
    initResult := .ok "uid"
    uploadPart := fun _ _ => .ok "e"
    completeResult := .ok ()
    abortResult := .ok () }

def senvC7w : StreamEnv :=
  { uploadPart := fun _ _ => .ok "e"
    completeResult := .ok ()
    abortResult := .ok () }

def suC7w : StreamingUploader :=
  { key := "k", uploadId := "uid", parts := [⟨2, "e2"⟩, ⟨1, "e1"⟩]
    partNumber := 2, aborted := false, completed := false }

theorem commit_sorted_witness :
    (ObsEvent.complete "k" "uid" [⟨1, "e1"⟩, ⟨2, "e2"⟩] ∈ (Complete senvC7w suC7w).2.2) ∧
    List.Sorted (· ≤ ·) (([⟨1, "e1"⟩, ⟨2, "e2"⟩] : List Part).map Part.partNumber) := by
  have hmem : ObsEvent.complete "k" "uid" [⟨1, "e1"⟩, ⟨2, "e2"⟩]
      ∈ (Complete senvC7w suC7w).2.2 := by decide
  exact ⟨hmem, (commit_sorted envC7w [] "k" [] 1 1 senvC7w suC7w).2 "k" "uid" _ hmem⟩

def senvC8 : StreamEnv :=
  { uploadPart := fun _ _ => .ok "e"
    completeResult := .ok ()
    abortResult := .ok () }

def suC8aborted : StreamingUploader :=
  { key := "k", uploadId := "u", parts := [], partNumber := 0
    aborted := true, completed := false }

/-- C8 counterexample: with the uploader in a terminal (aborted) state,
`WritePart` on the empty slice returns a nil error, because the empty-input
check precedes the state check; this refutes the claim that `WritePart`
returns a non-nil error for every input in a terminal state. -/
theorem writePart_terminal_empty_cex :
    suC8aborted.aborted = true ∧
    (WritePart senvC8 suC8aborted []).2.1 = none := ⟨rfl, rfl⟩

/-- C8 (amended): for every streaming uploader in a terminal state (after a
successful `Complete` or after `Abort`) and every NON-EMPTY input,
`WritePart` returns a non-nil error, performs no upload, assigns no part
number, and leaves `PartsCount` and `TotalPartNumber` unchanged.  (For the
empty slice it returns nil without touching any state.) -/
theorem writePart_terminal_err (env : StreamEnv) (su : StreamingUploader)
    (data : List Nat) (hterm : su.aborted = true ∨ su.completed = true)
    (hd : data.length ≠ 0) :
    (WritePart env su data).1 = su ∧
    (WritePart env su data).2.1.isSome = true ∧
    (WritePart env su data).2.2 = [] ∧
    PartsCount (WritePart env su data).1 = PartsCount su ∧
    TotalPartNumber (WritePart env su data).1 = TotalPartNumber su := by
  have hrun : ∃ e, WritePart env su data = (su, some e, []) := by
    unfold WritePart
    rw [if_neg hd]
    by_cases hab : su.aborted = true
    · rw [if_pos hab]
      exact ⟨_, rfl⟩
    · rcases hterm with h | h
      · exact absurd h hab
      · rw [if_neg hab, if_pos h]
        exact ⟨_, rfl⟩
  obtain ⟨e, heq⟩ := hrun
  rw [heq]
  exact ⟨rfl, rfl, rfl, rfl, rfl⟩

def suC8completed : StreamingUploader :=
  { key := "k", uploadId := "u", parts := [], partNumber := 0
    aborted := false, completed := true }

theorem writePart_terminal_err_witness :
    (suC8completed.aborted = true ∨ suC8completed.completed = true) ∧
    (([5] : List Nat).length ≠ 0) ∧
    (WritePart senvC8 suC8completed [5]).1 = suC8completed ∧
    (WritePart senvC8 suC8completed [5]).2.1.isSome = true := by
  have h := writePart_terminal_err senvC8 suC8completed [5] (Or.inr rfl) (by decide)
  exact ⟨Or.inr rfl, by decide, h.1, h.2.1⟩

/-- C9: `TryCreateLock` returns `(false, nil)` without writing when the
lock object exists; when absent it writes the lock content, waits the
fixed delay, reads the object back, and returns `(true, nil)` exactly when
the read-back contains the instance id; and every I/O failure of the
existence check, the write, or the read-back yields `(false, err)` with a
non-nil wrapped error. -/
theorem tryCreateLock_spec (env : LockEnv) (key : String) (c id : List Nat) :
    (env.headObject = .ok () →
      TryCreateLock env key c id = ((false, none), [.headObject key])) ∧
    (∀ e, env.headObject = .error e → isStatus404 e = false →
      TryCreateLock env key c id =
        ((false, some (.wrap "obsutil: 检查锁文件失败"
            (.wrap "obsutil: 检查对象是否存在失败" e))), [.headObject key])) ∧
    (∀ e pe, env.headObject = .error e → isStatus404 e = true →
      env.putObject = .error pe →
      TryCreateLock env key c id =
        ((false, some (.wrap "obsutil: 创建锁文件失败" (.wrap "obsutil: 上传对象失败" pe))),
         [.headObject key, .putObject key c])) ∧
    (∀ e ge, env.headObject = .error e → isStatus404 e = true →
      env.putObject = .ok () → env.getObject = .error ge →
      TryCreateLock env key c id =
        ((false, some (.wrap "obsutil: 读取锁文件失败" (.wrap "obsutil: 下载对象失败" ge))),
         [.headObject key, .putObject key c, .sleep 50000000, .getObject key])) ∧
    (∀ e d, env.headObject = .error e → isStatus404 e = true →
      env.putObject = .ok () → env.getObject = .ok d →
      TryCreateLock env key c id =
        ((decide (id <:+: d), none),
         [.headObject key, .putObject key c, .sleep 50000000, .getObject key])) := by
  refine ⟨?_, ?_, ?_, ?_, ?_⟩
  · intro h
    simp [TryCreateLock, ObjectExists, h]
  · intro e h h404
    simp [TryCreateLock, ObjectExists, h, h404]
  · intro e pe h h404 hput
    simp [TryCreateLock, ObjectExists, h, h404, hput]
  · intro e ge h h404 hput hget
    simp [TryCreateLock, ObjectExists, h, h404, hput, hget]
  · intro e d h h404 hput hget
    simp only [TryCreateLock, ObjectExists, h, h404, hput, hget, if_true]
    split
    · next hin => simp [decide_eq_true hin]
    · next hin => simp [decide_eq_false hin]

def lockEnvC9w : LockEnv :=
  { headObject := .error (.obsError 404 "nf")
    putObject := .ok ()
    getObject := .ok [9, 7, 7, 9] }

theorem tryCreateLock_spec_witness :
    lockEnvC9w.headObject = .error (.obsError 404 "nf") ∧
    isStatus404 (.obsError 404 "nf") = true ∧
    TryCreateLock lockEnvC9w "lock" [7, 7] [7, 7]
      = ((decide (([7, 7] : List Nat) <:+: [9, 7, 7, 9]), none),
         [.headObject "lock", .putObject "lock" [7, 7], .sleep 50000000,
          .getObject "lock"]) :=
  ⟨rfl, rfl,
    (tryCreateLock_spec lockEnvC9w "lock" [7, 7] [7, 7]).2.2.2.2
      (.obsError 404 "nf") [9, 7, 7, 9] rfl rfl rfl rfl⟩

/-- C10: `WritePart` called with an empty byte slice returns nil
immediately in every state, including terminal ones: it performs no
upload, consumes no part number, and leaves the uploader (hence
`PartsCount` and `TotalPartNumber`) unchanged. -/
theorem writePart_empty_noop (env : StreamEnv) (su : StreamingUploader) :
    WritePart env su [] = (su, none, []) ∧
    PartsCount (WritePart env su []).1 = PartsCount su ∧
    TotalPartNumber (WritePart env su []).1 = TotalPartNumber su :=
  ⟨rfl, rfl, rfl⟩

end Obsutil
